import Mathlib

/-!
# Verification of the pdlgen PDL core

Shallow embedding of the PDL parser/writer package (`pdl/pdl.go`,
`pdl/types.go`, `pdl/enum.go`), of the emission-helper resolver
(`gen/gotpl`), and of the normalization pass (`fixup`), together with
theorems settling the frozen claims about them.

Go strings are modelled as Lean `String`; all character-level processing
is done over `List Char` (UTF-8 byte order and code-point order agree,
so lexicographic comparison over `Char` matches Go's `strings.Compare`).
Go slices of pointers are modelled as Lean lists; pointer mutation is
modelled by threading explicit locations (index paths) through a state
record.  A Go `nil` slice is distinguished from an empty one by
`Option (List _)` where the distinction is observable in the source.
Go `panic` / nil-pointer faults are modelled as a distinguished result
constructor.
-/

/-! ## Character and string helpers (models of the Go stdlib calls used) -/

/-- The ASCII white-space set of Go's `strings.TrimSpace`
(`unicode.IsSpace` restricted to ASCII; the PDL sources are ASCII). -/
def isGoSpace (c : Char) : Bool :=
  c = ' ' || c = '\t' || c = '\n' || c = (Char.ofNat 11) || c = (Char.ofNat 12) || c = '\r'

/-- The character class `\s` of Go's `regexp` package: `[\t\n\f\r ]`. -/
def isRESpace (c : Char) : Bool :=
  c = '\t' || c = '\n' || c = (Char.ofNat 12) || c = '\r' || c = ' '

/-- `strings.TrimSpace` over a character list. -/
def trimChars (l : List Char) : List Char :=
  ((l.dropWhile isGoSpace).reverse.dropWhile isGoSpace).reverse

/-- Strip a literal prefix, returning the remainder on success. -/
def stripPrefix? : List Char → List Char → Option (List Char)
  | [], l => some l
  | _ :: _, [] => none
  | p :: ps, c :: cs => if p = c then stripPrefix? ps cs else none

theorem stripPrefix?_length {p l r : List Char} (h : stripPrefix? p l = some r) :
    p.length + r.length = l.length := by
  induction p generalizing l with
  | nil => simp [stripPrefix?] at h; simp [h]
  | cons a as ih =>
    cases l with
    | nil => simp [stripPrefix?] at h
    | cons c cs =>
      simp only [stripPrefix?] at h
      split at h
      · have := ih h; simp at this ⊢; omega
      · exact absurd h (by simp)

/-- Greedy `[^\s]+`: the maximal leading run of non-`\s` characters,
`none` when that run is empty.  Returns the token and the remainder. -/
def token1 (l : List Char) : Option (List Char × List Char) :=
  let tok := l.takeWhile (fun c => !isRESpace c)
  if tok = [] then none else some (tok, l.drop tok.length)

/-- Greedy `\d+`: the maximal leading digit run, `none` when empty. -/
def digits1 (l : List Char) : Option (List Char) :=
  let ds := l.takeWhile (fun c => c.isDigit)
  if ds = [] then none else some ds

/-- `strings.Split(s, "\n")` over characters. -/
def splitNl : List Char → List (List Char)
  | [] => [[]]
  | c :: cs =>
    let r := splitNl cs
    if c = '\n' then [] :: r
    else
      match r with
      | [] => [[c]]
      | h :: t => (c :: h) :: t

/-- A decimal numeral (the digit runs captured by `major`/`minor`). -/
def digitsToNat : List Char → Nat
  | [] => 0
  | l => l.foldl (fun n c => n * 10 + (c.toNat - 48)) 0

def ofChars (l : List Char) : String := String.mk l

def chars (s : String) : List Char := s.data

/-- `strings.HasPrefix`. -/
def goHasPrefix (s pre : String) : Bool := (stripPrefix? (chars pre) (chars s)).isSome

/-- `strings.TrimPrefix`. -/
def goTrimPrefix (s pre : String) : String :=
  match stripPrefix? (chars pre) (chars s) with
  | some rest => ofChars rest
  | none => s

/-- `strings.TrimSuffix`. -/
def goTrimSuffix (s suf : String) : String :=
  match stripPrefix? (chars suf).reverse (chars s).reverse with
  | some rest => ofChars rest.reverse
  | none => s

/-- `strings.TrimSpace`. -/
def goTrimSpace (s : String) : String := ofChars (trimChars (chars s))

/-- `strings.ToLower` (ASCII; the domain names it is applied to are ASCII). -/
def goToLower (s : String) : String := ofChars ((chars s).map Char.toLower)

/-- `strings.Replace(s, old, new, -1)`; `old` is assumed non-empty
(it always is at the call sites). -/
def replaceAllChars (pat rep : List Char) : List Char → List Char
  | [] => []
  | c :: cs =>
    match h : stripPrefix? pat (c :: cs) with
    | some rest =>
      if hp : pat.isEmpty then c :: replaceAllChars pat rep cs
      else rep ++ replaceAllChars pat rep rest
    | none => c :: replaceAllChars pat rep cs
termination_by l => l.length
decreasing_by
  all_goals simp_wf
  all_goals try omega
  have hl := stripPrefix?_length h
  have hpl : 0 < pat.length := by
    cases pat with
    | nil => simp at hp
    | cons _ _ => simp
  simp at hl; omega

def goReplaceAll (s old new : String) : String :=
  ofChars (replaceAllChars (chars old) (chars new) (chars s))

/-- Byte-lexicographic `strings.Compare s t < 0` (code-point order,
which agrees with UTF-8 byte order). -/
def goStrLt (s t : String) : Bool :=
  go (chars s) (chars t)
where
  go : List Char → List Char → Bool
  | [], [] => false
  | [], _ :: _ => true
  | _ :: _, [] => false
  | a :: as, b :: bs => if a = b then go as bs else decide (a.toNat < b.toNat)

/-- `strconv.Itoa` for the (small, non-negative in practice) ints that
occur in version stanzas; negative values render with a leading minus,
as in Go. -/
def goItoa (i : Int) : String :=
  if i < 0 then "-" ++ Nat.repr i.natAbs else Nat.repr i.natAbs

/-- First-dot split: `strings.SplitN(ref, ".", 2)`.  Result is
`(ref, none)` when `ref` has no dot, else `(before, some after)`. -/
def splitFirstDot (s : String) : String × Option String :=
  match go (chars s) with
  | none => (s, none)
  | some (a, b) => (ofChars a, some (ofChars b))
where
  go : List Char → Option (List Char × List Char)
  | [] => none
  | c :: cs =>
    if c = '.' then some ([], cs)
    else (go cs).map (fun p => (c :: p.1, p.2))

/-- `strings.LastIndex(s, ".")`-based tail: the part after the last dot,
or `s` itself when there is no dot (the redirect-comment name extraction). -/
def afterLastDot (s : String) : String :=
  match go (chars s) with
  | none => s
  | some t => ofChars t
where
  go : List Char → Option (List Char)
  | [] => none
  | c :: cs =>
    match go cs with
    | some t => some t
    | none => if c = '.' then some cs else none

/-! ## The pdl data model (`pdl/types.go`, `pdl/enum.go`)

`TypeEnum` and `DomainType` are Go string types; they are modelled as
`String` (the zero value is `""`).  `TimestampType` is a Go int with
named constants 1..3; it is modelled as `Nat` with 0 for the zero value.
The `Type` struct is recursive (`Items`, `Parameters`, `Returns`,
`Properties`); its non-recursive fields are grouped in `PTypeBase` and
the recursive ones in the single-constructor inductive `PType`
(`structure` cannot be recursive).  The later revisions of the struct
(used by the fixup and gotpl packages) add `RawType`/`RawName`/`RawSee`/
`AlwaysEmit`; they are included here and simply unused by the parser. -/

namespace Pdl

structure Version where
  major : Int := 0
  minor : Int := 0
deriving Repr, DecidableEq

structure Redirect where
  domain : String := ""
  name : String := ""
deriving Repr, DecidableEq

structure PTypeBase where
  type : String := ""
  name : String := ""
  description : String := ""
  experimental : Bool := false
  deprecated : Bool := false
  optional : Bool := false
  ref : String := ""
  redirect : Option Redirect := none
  enum : Option (List String) := none
  timestampType : Nat := 0
  noExpose : Bool := false
  noResolve : Bool := false
  enumValueNameMap : Option (List (String × String)) := none
  enumBitMask : Bool := false
  extra : String := ""
  rawType : String := ""
  rawName : String := ""
  rawSee : String := ""
  alwaysEmit : Bool := false
deriving Repr, DecidableEq

inductive PType where
  | mk (base : PTypeBase) (items : Option PType)
       (parameters : Option (List PType)) (returns : Option (List PType))
       (properties : Option (List PType)) : PType

def PType.base : PType → PTypeBase
  | .mk b _ _ _ _ => b

def PType.items : PType → Option PType
  | .mk _ i _ _ _ => i

def PType.parameters : PType → Option (List PType)
  | .mk _ _ p _ _ => p

def PType.returns : PType → Option (List PType)
  | .mk _ _ _ r _ => r

def PType.properties : PType → Option (List PType)
  | .mk _ _ _ _ p => p

def PType.ofBase (b : PTypeBase) : PType := .mk b none none none none

instance : Inhabited PType := ⟨PType.ofBase {}⟩

def PType.modBase (t : PType) (f : PTypeBase → PTypeBase) : PType :=
  .mk (f t.base) t.items t.parameters t.returns t.properties

def PType.setItems (t : PType) (i : Option PType) : PType :=
  .mk t.base i t.parameters t.returns t.properties

def PType.setParameters (t : PType) (p : Option (List PType)) : PType :=
  .mk t.base t.items p t.returns t.properties

def PType.setReturns (t : PType) (r : Option (List PType)) : PType :=
  .mk t.base t.items t.parameters r t.properties

def PType.setProperties (t : PType) (p : Option (List PType)) : PType :=
  .mk t.base t.items t.parameters t.returns p

def PType.name (t : PType) : String := t.base.name
def PType.type (t : PType) : String := t.base.type
def PType.ref (t : PType) : String := t.base.ref
def PType.enum (t : PType) : Option (List String) := t.base.enum
def PType.description (t : PType) : String := t.base.description
def PType.optional (t : PType) : Bool := t.base.optional
def PType.redirect (t : PType) : Option Redirect := t.base.redirect
def PType.noExpose (t : PType) : Bool := t.base.noExpose
def PType.noResolve (t : PType) : Bool := t.base.noResolve

structure Domain where
  domain : String := ""
  description : String := ""
  experimental : Bool := false
  deprecated : Bool := false
  dependencies : List String := []
  types : List PType := []
  commands : List PType := []
  events : List PType := []
deriving Inhabited

structure PDL where
  copyright : String := ""
  version : Option Version := none
  domains : List Domain := []
deriving Inhabited

/-! ## `assignType` and `primitiveTypes` (`pdl/pdl.go` lines 29-58) -/

/-- `primitiveTypes` — the map of primitive type names to their enum
value.  Note: the source map has exactly these seven entries; `binary`
is *not* among them. -/
def primitiveTypes (s : String) : Option String :=
  if s = "integer" then some "integer"
  else if s = "number" then some "number"
  else if s = "boolean" then some "boolean"
  else if s = "string" then some "string"
  else if s = "object" then some "object"
  else if s = "any" then some "any"
  else if s = "array" then some "array"
  else none

/-- The non-array body of `assignType` (the `isArray` branch of the Go
function recurses exactly once, with `isArray` forced false; splitting
that single level off keeps the definition structurally recursive). -/
def assignTypeScalar (item : PType) (typ : String) : PType :=
  let typ := if typ = "enum" then "string" else typ
  match primitiveTypes typ with
  | some pt => item.modBase (fun b => { b with type := pt })
  | none => item.modBase (fun b => { b with ref := typ })

/-- `assignType` assigns item to be of type `typ`. -/
def assignType (item : PType) (typ : String) (isArray : Bool) : PType :=
  if isArray then
    (item.modBase (fun b => { b with type := "array" })).setItems
      (some (assignTypeScalar (PType.ofBase {}) typ))
  else
    assignTypeScalar item typ

/-! ## `Combine` (`pdl/pdl.go` lines 447-468) -/

/-- The body of `Combine`'s loop for one input definition `p`. -/
def combineStep (pdl p : PDL) : PDL :=
  let pdl := if pdl.copyright = "" then { pdl with copyright := p.copyright } else pdl
  let pdl := if pdl.version = none then { pdl with version := some {} } else pdl
  let v := pdl.version.getD {}
  let pdl :=
    match p.version with
    | none => pdl
    | some pv =>
      if v.major < pv.major then
        { pdl with version := some pv }
      else if v.minor < pv.minor then
        { pdl with version := some { v with minor := pv.minor } }
      else pdl
  { pdl with domains := pdl.domains ++ p.domains }

/-- `Combine` combines the domains from multiple PDL definitions. -/
def Combine (pdls : List PDL) : PDL :=
  pdls.foldl combineStep {}

end Pdl

/-! ## The PDL parser (`pdl/pdl.go` lines 60-253)

Each of the twelve anchored regular expressions of `Parse` is modelled
by a matcher over the raw line's characters.  Go's `regexp` submatch
semantics are leftmost-first (backtracking-compatible): a greedy
optional literal group `(lit )?` first tries to consume the literal and
falls back to the empty match if the rest of the pattern fails, and a
greedy `(.*)` prefers the longest prefix for which the rest of the
pattern still matches.  `optLit` and the right-preferring scan in
`extendsAux` implement exactly that. -/

/-- A greedy optional literal group `(lit)?` followed by continuation
`k`: try with the literal consumed, fall back to without. -/
def optLit (lit : List Char) (k : List Char → Option α) (l : List Char) :
    Option (Bool × α) :=
  match stripPrefix? lit l with
  | some rest =>
    match k rest with
    | some a => some (true, a)
    | none => (k l).map (fun a => (false, a))
  | none => (k l).map (fun a => (false, a))

/-- `^(experimental )?(deprecated )?domain (.*)` -/
def matchDomain (l : List Char) : Option (Bool × Bool × String) :=
  optLit (chars "experimental ")
    (optLit (chars "deprecated ")
      (fun l => (stripPrefix? (chars "domain ") l).map ofChars)) l

/-- `^  depends on ([^\s]+)` -/
def matchDepends (l : List Char) : Option String :=
  (stripPrefix? (chars "  depends on ") l).bind
    (fun r => (token1 r).map (fun p => ofChars p.1))

/-- `(array of )?([^\s]+)` — the tail of the `type`-line pattern. -/
def matchBase (l : List Char) : Option (Bool × String) :=
  optLit (chars "array of ") (fun r => (token1 r).map (fun p => ofChars p.1)) l

/-- The `(.*) extends (array of )?([^\s]+)` tail: the greedy `(.*)`
takes the longest prefix such that the rest still matches, i.e. the
*last* viable occurrence of `" extends "` wins. -/
def extendsAux : List Char → Option (List Char × Bool × String)
  | [] => none
  | c :: cs =>
    match extendsAux cs with
    | some (pre, a, t) => some (c :: pre, a, t)
    | none =>
      match stripPrefix? (chars " extends ") (c :: cs) with
      | some rest => (matchBase rest).map (fun p => ([], p.1, p.2))
      | none => none

/-- `^  (experimental )?(deprecated )?type (.*) extends (array of )?([^\s]+)` -/
def matchType (l : List Char) :
    Option (Bool × Bool × String × Bool × String) :=
  (stripPrefix? (chars "  ") l).bind
    (optLit (chars "experimental ")
      (optLit (chars "deprecated ")
        (fun l => (stripPrefix? (chars "type ") l).bind
          (fun r => (extendsAux r).map (fun p => (ofChars p.1, p.2))))))

/-- `^  (experimental )?(deprecated )?(command|event) (.*)`; the `Bool`
in the result is `true` for `command`. -/
def matchCommandEvent (l : List Char) :
    Option (Bool × Bool × Bool × String) :=
  (stripPrefix? (chars "  ") l).bind
    (optLit (chars "experimental ")
      (optLit (chars "deprecated ")
        (fun l =>
          match stripPrefix? (chars "command ") l with
          | some r => some (true, ofChars r)
          | none => (stripPrefix? (chars "event ") l).map (fun r => (false, ofChars r)))))

/-- `([^\s]+) ([^\s]+)` — the member pattern's two captured tokens. -/
def twoTokens (l : List Char) : Option (String × String) :=
  (token1 l).bind fun p =>
    match l.drop p.1.length with
    | ' ' :: r2 => (token1 r2).map (fun q => (ofChars p.1, ofChars q.1))
    | _ => none

/-- `^      (experimental )?(deprecated )?(optional )?(array of )?([^\s]+) ([^\s]+)` -/
def matchMember (l : List Char) :
    Option (Bool × Bool × Bool × Bool × String × String) :=
  (stripPrefix? (chars "      ") l).bind
    (optLit (chars "experimental ")
      (optLit (chars "deprecated ")
        (optLit (chars "optional ")
          (optLit (chars "array of ") twoTokens))))

inductive SubSec where
  | parameters | returns | properties
deriving Repr, DecidableEq

/-- `^    (parameters|returns|properties)` -/
def matchSection (l : List Char) : Option SubSec :=
  (stripPrefix? (chars "    ") l).bind fun r =>
    if (stripPrefix? (chars "parameters") r).isSome then some .parameters
    else if (stripPrefix? (chars "returns") r).isSome then some .returns
    else if (stripPrefix? (chars "properties") r).isSome then some .properties
    else none

/-- `^    enum` -/
def matchEnum (l : List Char) : Option Unit :=
  if (stripPrefix? (chars "    enum") l).isSome then some () else none

/-- `^version` -/
def matchVersion (l : List Char) : Option Unit :=
  if (stripPrefix? (chars "version") l).isSome then some () else none

/-- `^  major (\d+)` -/
def matchMajor (l : List Char) : Option (List Char) :=
  (stripPrefix? (chars "  major ") l).bind digits1

/-- `^  minor (\d+)` -/
def matchMinor (l : List Char) : Option (List Char) :=
  (stripPrefix? (chars "  minor ") l).bind digits1

/-- `^    redirect ([^\s]+)` -/
def matchRedirect (l : List Char) : Option String :=
  (stripPrefix? (chars "    redirect ") l).bind
    (fun r => (token1 r).map (fun p => ofChars p.1))

/-- `^      (  )?[^\s]+$` -/
def matchEnumLiteral (l : List Char) : Option Unit :=
  match stripPrefix? (chars "      ") l with
  | none => none
  | some r =>
    let tokAll : List Char → Bool := fun t => !t.isEmpty && t.all (fun c => !isRESpace c)
    match stripPrefix? (chars "  ") r with
    | some r8 => if tokAll r8 || tokAll r then some () else none
    | none => if tokAll r then some () else none

/-- The single-quote character (ASCII 39). -/
def sqc : Char := Char.ofNat 39

/-- The single-quote character as a string. -/
def sqs : String := ofChars [sqc]

/-- `redirectCommentRE`: `^Use '([^']+)' instead$`, applied to the whole
accumulated description (Go's `^`/`$` anchor at text start/end, no
multi-line mode).  Returns the quoted capture. -/
def matchUse (desc : String) : Option String :=
  match stripPrefix? (chars "Use " ++ [sqc]) (chars desc) with
  | none => none
  | some rest =>
    let name := rest.takeWhile (fun c => c ≠ sqc)
    if name = [] then none
    else if rest.drop name.length = sqc :: chars " instead" then some (ofChars name)
    else none

namespace Pdl

/-! ### Parser state

The Go parser keeps pointers `domain`, `item`, `subitems`,
`enumliterals` into the model under construction; they are modelled as
index paths.  An element is only ever appended to a list, so a recorded
index stays valid. -/

inductive ItemSec where
  | types | commands | events
deriving Repr, DecidableEq

structure ItemLoc where
  dom : Nat
  sec : ItemSec
  idx : Nat
deriving Repr, DecidableEq

structure SubLoc where
  item : ItemLoc
  sec : SubSec
deriving Repr, DecidableEq

inductive EnumLoc where
  | item (loc : ItemLoc)
  | member (loc : SubLoc) (idx : Nat)
deriving Repr, DecidableEq

def modifyAt : List α → Nat → (α → α) → List α
  | [], _, _ => []
  | x :: xs, 0, f => f x :: xs
  | x :: xs, n + 1, f => x :: modifyAt xs n f

def Domain.getSec (d : Domain) : ItemSec → List PType
  | .types => d.types
  | .commands => d.commands
  | .events => d.events

def Domain.setSec (d : Domain) : ItemSec → List PType → Domain
  | .types, l => { d with types := l }
  | .commands, l => { d with commands := l }
  | .events, l => { d with events := l }

def PType.getSub (t : PType) : SubSec → Option (List PType)
  | .parameters => t.parameters
  | .returns => t.returns
  | .properties => t.properties

def PType.setSub (t : PType) : SubSec → Option (List PType) → PType
  | .parameters, l => t.setParameters l
  | .returns, l => t.setReturns l
  | .properties, l => t.setProperties l

def PDL.modifyDomain (p : PDL) (i : Nat) (f : Domain → Domain) : PDL :=
  { p with domains := modifyAt p.domains i f }

def PDL.modifyItem (p : PDL) (loc : ItemLoc) (f : PType → PType) : PDL :=
  p.modifyDomain loc.dom (fun d => d.setSec loc.sec (modifyAt (d.getSec loc.sec) loc.idx f))

def PDL.getItem (p : PDL) (loc : ItemLoc) : PType :=
  ((p.domains.getD loc.dom default).getSec loc.sec).getD loc.idx default

def PDL.getSubList (p : PDL) (sl : SubLoc) : List PType :=
  ((p.getItem sl.item).getSub sl.sec).getD []

def PDL.modifySubList (p : PDL) (sl : SubLoc)
    (f : Option (List PType) → Option (List PType)) : PDL :=
  p.modifyItem sl.item (fun t => t.setSub sl.sec (f (t.getSub sl.sec)))

def PType.appendEnumVal (t : PType) (v : String) : PType :=
  t.modBase (fun b => { b with enum := some (b.enum.getD [] ++ [v]) })

def PDL.appendEnum (p : PDL) (el : EnumLoc) (v : String) : PDL :=
  match el with
  | .item loc => p.modifyItem loc (fun t => t.appendEnumVal v)
  | .member sl i =>
    p.modifySubList sl (fun o => some (modifyAt (o.getD []) i (fun m => m.appendEnumVal v)))

structure PState where
  pdl : PDL := {}
  curDomain : Option Nat := none
  curItem : Option ItemLoc := none
  subitems : Option SubLoc := none
  enumliterals : Option EnumLoc := none
  desc : String := ""
  copyright : Bool := false
  clearDesc : Bool := false

inductive Step where
  | next (s : PState)
  | unknownTok
  | nilPanic

inductive PResult where
  | ok (p : PDL)
  | err (idx : Nat) (line : String)
  | panic

/-- One iteration of the `Parse` loop body on one raw line.
`.unknownTok` is the `fmt.Errorf("line %d unknown token %q", ...)`
return; `.nilPanic` is a Go nil-pointer dereference (the source guards
none of `domain`, `item`, `subitems`, `enumliterals`, `pdl.Version`). -/
def parseLine (s : PState) (line : String) : Step :=
  -- clear the description if toggled
  let s := if s.clearDesc then { s with desc := "", clearDesc := false } else s
  let lc := chars line
  let trimmed := trimChars lc
  -- add to desc / capture copyright
  if trimmed.headD ' ' = '#' then
    .next { s with desc :=
      (if s.desc = "" then "" else s.desc ++ "\n") ++ ofChars (trimChars (trimmed.drop 1)) }
  else
  let s := if s.copyright then s
    else { s with copyright := true, pdl := { s.pdl with copyright := s.desc } }
  let s := { s with clearDesc := true }
  -- skip empty line
  if trimmed = [] then .next s
  else
  -- domain
  match matchDomain lc with
  | some (exp, dep, name) =>
    let d : Domain := { domain := name, experimental := exp, deprecated := dep,
                        description := goTrimSpace s.desc }
    .next { s with pdl := { s.pdl with domains := s.pdl.domains ++ [d] },
                   curDomain := some s.pdl.domains.length }
  | none =>
  -- dependencies
  match matchDepends lc with
  | some dep =>
    match s.curDomain with
    | none => .nilPanic
    | some i =>
      let pdl := s.pdl.modifyDomain i (fun d => { d with dependencies := d.dependencies ++ [dep] })
      .next { s with pdl := pdl }
  | none =>
  -- type
  match matchType lc with
  | some (exp, dep, name, isArr, base) =>
    match s.curDomain with
    | none => .nilPanic
    | some i =>
      let item := assignType
        (PType.ofBase { name := name, experimental := exp, deprecated := dep,
                        description := goTrimSpace s.desc }) base isArr
      let idx := (s.pdl.domains.getD i default).types.length
      let pdl := s.pdl.modifyDomain i (fun d => { d with types := d.types ++ [item] })
      .next { s with pdl := pdl, curItem := some ⟨i, .types, idx⟩ }
  | none =>
  -- command or event
  match matchCommandEvent lc with
  | some (exp, dep, isCmd, name) =>
    match s.curDomain with
    | none => .nilPanic
    | some i =>
      let item := PType.ofBase { name := name, experimental := exp, deprecated := dep,
                                 description := goTrimSpace s.desc }
      if isCmd then
        let idx := (s.pdl.domains.getD i default).commands.length
        let pdl := s.pdl.modifyDomain i (fun d => { d with commands := d.commands ++ [item] })
        .next { s with pdl := pdl, curItem := some ⟨i, .commands, idx⟩ }
      else
        let idx := (s.pdl.domains.getD i default).events.length
        let pdl := s.pdl.modifyDomain i (fun d => { d with events := d.events ++ [item] })
        .next { s with pdl := pdl, curItem := some ⟨i, .events, idx⟩ }
  | none =>
  -- member to params / returns / properties
  match matchMember lc with
  | some (exp, dep, opt, isArr, base, name) =>
    let param := assignType
      (PType.ofBase { name := name, experimental := exp, deprecated := dep,
                      description := goTrimSpace s.desc, optional := opt }) base isArr
    let param := if base = "enum" then param.modBase (fun b => { b with enum := some [] })
                 else param
    match s.subitems with
    | none => .nilPanic
    | some sl =>
      let idx := (s.pdl.getSubList sl).length
      let s := if base = "enum" then { s with enumliterals := some (.member sl idx) } else s
      let pdl := s.pdl.modifySubList sl (fun o => some (o.getD [] ++ [param]))
      .next { s with pdl := pdl }
  | none =>
  -- parameters, returns, properties definition
  match matchSection lc with
  | some tag =>
    match s.curItem with
    | none => .nilPanic
    | some loc =>
      let pdl := s.pdl.modifyItem loc (fun t => t.setSub tag (some []))
      .next { s with pdl := pdl, subitems := some ⟨loc, tag⟩ }
  | none =>
  -- enum
  match matchEnum lc with
  | some _ =>
    match s.curItem with
    | none => .nilPanic
    | some loc =>
      let pdl := s.pdl.modifyItem loc (fun t => t.modBase (fun b => { b with enum := some [] }))
      .next { s with pdl := pdl, enumliterals := some (.item loc) }
  | none =>
  -- version
  match matchVersion lc with
  | some _ => .next { s with pdl := { s.pdl with version := some {} } }
  | none =>
  -- version major
  match matchMajor lc with
  | some ds =>
    match s.pdl.version with
    | none => .nilPanic
    | some v =>
      let pdl := { s.pdl with version := some { v with major := (digitsToNat ds : Int) } }
      .next { s with pdl := pdl }
  | none =>
  -- version minor
  match matchMinor lc with
  | some ds =>
    match s.pdl.version with
    | none => .nilPanic
    | some v =>
      let pdl := { s.pdl with version := some { v with minor := (digitsToNat ds : Int) } }
      .next { s with pdl := pdl }
  | none =>
  -- redirect
  match matchRedirect lc with
  | some dom =>
    match s.curItem with
    | none => .nilPanic
    | some loc =>
      let nm := match matchUse s.desc with
        | some z => afterLastDot z
        | none => ""
      let pdl := s.pdl.modifyItem loc (fun t => t.modBase (fun b => { b with redirect := some ⟨dom, nm⟩ }))
      .next { s with pdl := pdl }
  | none =>
  -- enum literal
  match matchEnumLiteral lc with
  | some _ =>
    match s.enumliterals with
    | none => .nilPanic
    | some el => .next { s with pdl := s.pdl.appendEnum el (ofChars trimmed) }
  | none => .unknownTok

/-- The parse loop over the remaining lines; `i` is the 0-based index of
the first line of `rest` within the whole input. -/
def parseLines (s : PState) (i : Nat) : List String → PResult
  | [] => .ok s.pdl
  | line :: rest =>
    match parseLine s line with
    | .next s' => parseLines s' (i + 1) rest
    | .unknownTok => .err i line
    | .nilPanic => .panic

/-- `Parse` parses a PDL file contained in `buf`. -/
def Parse (buf : String) : PResult :=
  parseLines {} 0 ((splitNl (chars buf)).map ofChars)

end Pdl

/-! ## The round-trip writer `Bytes` (`pdl/pdl.go` lines 264-445)

`Bytes` is modelled as a function to `Option String`: `none` models the
one unguarded nil dereference (`p.Items.Ref` in `writeProps`, reached
for a member whose `Type` is `array` but whose `Items` pointer is nil).

`sort.Slice` is modelled by `sortSliceGo`, Go's insertion sort with the
supplied `less`; Go's `sort.Slice` runs exactly insertion sort for
slices shorter than the introsort shortcut threshold (12), which covers
every input these theorems evaluate it on.  Note the source's `less`
functions for types, commands and events compare `[i]` with `[i]` —
they are constantly false, so those sorts move nothing. -/

namespace Pdl

/-- One bubbling step of Go insertion sort: insert `x` into `acc` from
the right, swapping left while `less x neighbour`. -/
def insertGo (less : α → α → Bool) (acc : List α) (x : α) : List α :=
  let rev := acc.reverse
  let bubbled := rev.takeWhile (fun y => less x y)
  let rest := rev.dropWhile (fun y => less x y)
  rest.reverse ++ x :: bubbled.reverse

/-- `sort.Slice` (insertion sort regime, see above). -/
def sortSliceGo (less : α → α → Bool) (l : List α) : List α :=
  l.foldl (insertGo less) []

/-- `writeDesc` conditionally writes a description. -/
def writeDesc (desc indent : String) : String :=
  if desc = "" then ""
  else
    ((splitNl (chars desc)).map
      (fun line =>
        chars indent ++ chars "#" ++ (if line ≠ [] then ' ' :: line else line) ++ ['\n'])).foldl
      (fun acc l => acc ++ l) [] |> ofChars

/-- `writeDecl` writes a declaration line. -/
def writeDecl (typ name desc indent : String) (experimental deprecated optional : Bool)
    (extra : List String) : String :=
  let v : List String :=
    (if experimental then ["experimental"] else []) ++
    (if deprecated then ["deprecated"] else []) ++
    (if optional then ["optional"] else []) ++
    [typ, name] ++ extra
  writeDesc desc indent ++ indent ++ String.intercalate " " v ++ "\n"

def writeRedirect (typ : PType) (indent : String) : String :=
  match typ.redirect with
  | none => ""
  | some r =>
    (if r.name ≠ "" then
      indent ++ "# Use " ++ sqs ++ r.domain ++ "." ++ r.name ++ sqs ++ " instead\n"
     else "") ++
    indent ++ "redirect " ++ r.domain ++ "\n"

/-- The `ref` computation inside `writeProps`'s loop; `none` models the
nil dereference of `p.Items` when `p` is an `array` without items. -/
def propExtendsRef (p : PType) : Option String :=
  let ref := p.type
  let ref := if p.ref ≠ "" then p.ref else ref
  match (if p.type = "array" then
           (p.items.map (fun it => "array of " ++ (if it.ref = "" then it.type else it.ref)))
         else some ref) with
  | none => none
  | some ref => some (if (p.enum.getD []) ≠ [] then "enum" else ref)

/-- `writeProps` writes a list of types for object properties. -/
def writeProps (typ indent : String) (props : List PType) : Option String :=
  if props.isEmpty then some ""
  else
    (props.foldl
      (fun acc p =>
        match acc, propExtendsRef p with
        | some acc, some ref =>
          some (acc ++
            writeDecl ref p.name p.description (indent ++ "  ")
              p.base.experimental p.base.deprecated p.optional [] ++
            (if (p.enum.getD []) ≠ [] then
              ((p.enum.getD []).map (fun e => indent ++ "    " ++ e ++ "\n")).foldl
                (· ++ ·) ""
             else ""))
        | _, _ => none)
      (some (indent ++ typ ++ "\n")))

/-- The per-domain body of `Bytes` (types, commands, events stanzas). -/
def writeDomain (d : Domain) : Option String := do
  let mut out := ""
  -- write domain stanza
  out := out ++ writeDecl "domain" d.domain d.description "" d.experimental d.deprecated false []
  -- write depends
  for dep in d.dependencies do
    out := out ++ "  depends on " ++ dep ++ "\n"
  out := out ++ "\n"
  -- sort types (the comparator compares an entry with itself: no-op)
  let types := sortSliceGo (fun i _j => goStrLt i.name i.name) d.types
  for typ in types do
    let extends_ :=
      if typ.type = "array" then
        "array of " ++
          (match typ.items with
           | some it => if it.type = "" then it.ref else it.type
           | none => "")
      else typ.type
    out := out ++ writeDecl "type" typ.name typ.description "  "
      typ.base.experimental typ.base.deprecated typ.optional ["extends", extends_]
    out := out ++ writeRedirect typ "  "
    if (typ.enum.getD []) ≠ [] then
      out := out ++ "    enum\n"
      for e in typ.enum.getD [] do
        -- `fmt.Fprintln(buf, "     ", e)` separates its operands with a space
        out := out ++ "      " ++ e ++ "\n"
    out := out ++ (← writeProps "properties" "    " (typ.properties.getD []))
    out := out ++ "\n"
  -- sort commands (again a self-comparison: no-op)
  let commands := sortSliceGo (fun i _j => goStrLt i.name i.name) d.commands
  for c in commands do
    out := out ++ writeDecl "command" c.name c.description "  "
      c.base.experimental c.base.deprecated c.optional []
    out := out ++ writeRedirect c "    "
    out := out ++ (← writeProps "parameters" "    " (c.parameters.getD []))
    out := out ++ (← writeProps "returns" "    " (c.returns.getD []))
    out := out ++ "\n"
  -- sort events (again a self-comparison: no-op)
  let events := sortSliceGo (fun i _j => goStrLt i.name i.name) d.events
  for e in events do
    out := out ++ writeDecl "event" e.name e.description "  "
      e.base.experimental e.base.deprecated e.optional []
    out := out ++ writeRedirect e "    "
    out := out ++ (← writeProps "parameters" "    " (e.parameters.getD []))
    out := out ++ "\n"
  return out

/-- `Bytes` generates the PDL file contents from the pdl. -/
def Bytes (pdl : PDL) : Option String := do
  let mut out := ""
  -- add copyright
  if pdl.copyright ≠ "" then
    out := out ++ writeDesc pdl.copyright "" ++ "\n"
  -- add version
  match pdl.version with
  | some v =>
    out := out ++ "version\n" ++ "  major " ++ goItoa v.major ++ "\n" ++
      "  minor " ++ goItoa v.minor ++ "\n" ++ "\n"
  | none => pure ()
  -- copy and sort domains (this comparator does compare `i` with `j`)
  let domains := sortSliceGo (fun i j => goStrLt i.domain j.domain) pdl.domains
  -- write each domain
  for d in domains do
    out := out ++ (← writeDomain d)
  -- trim trailing white space, end with a single newline
  return ofChars ((chars out).reverse.dropWhile isGoSpace).reverse ++ "\n"

end Pdl

/-! ## `Resolve` (`pdl/types.go` lines 127-167)

`snaker.ForceCamelIdentifier` is an external library call
(`github.com/knq/snaker`); the resolver is parameterized over it
(`camel`), exactly as it is already parameterized over `sharedFunc`. -/

namespace Pdl

/-- The inner loop of `Resolve`: first type with the given name. -/
def resolveScanTypes (typ : String) : List PType → Option PType
  | [] => none
  | j :: rest => if j.name = typ then some j else resolveScanTypes typ rest

/-- The outer loop of `Resolve`: scan for the first domain named `dtyp`
and look only inside it (the loop breaks after the first name match). -/
def resolveScanDomains (dtyp typ : String) : List Domain → Option PType
  | [] => none
  | z :: rest =>
    if dtyp = z.domain then resolveScanTypes typ z.types
    else resolveScanDomains dtyp typ rest

/-- `Resolve` finds the ref in the provided domains, relative to domain
`d` when ref is not namespaced.  `.error` models the `panic` with the
same message. -/
def Resolve (ref : String) (d : Domain) (domains : List Domain)
    (sharedFunc : String → String → Bool) (camel : String → String) :
    Except String (String × PType × String) :=
  let n := splitFirstDot ref
  -- determine domain
  let dtyp := match n.2 with | some _ => n.1 | none => d.domain
  let typ := match n.2 with | some after => after | none => n.1
  -- determine if ref points to an object
  match resolveScanDomains dtyp typ domains with
  | none => .error ("could not resolve type " ++ ref ++ " in domain " ++ d.domain)
  | some other =>
    -- add prefix if not an internal type and not defined in the domain
    let s :=
      if sharedFunc dtyp typ then (if d.domain ≠ "cdp" then "cdp." else "")
      else if dtyp ≠ d.domain then goToLower dtyp ++ "."
      else ""
    .ok (dtyp, other, s ++ camel typ)

end Pdl

/-! ## The emission-helper resolver (`gen/gotpl/types.go` `Resolve`)

A textually separate function in the gotpl package with the same body
as `pdl.Resolve`; embedded separately so the two can be compared. -/

namespace Gotpl

def resolveScanTypes (typ : String) : List Pdl.PType → Option Pdl.PType
  | [] => none
  | j :: rest => if j.name = typ then some j else resolveScanTypes typ rest

def resolveScanDomains (dtyp typ : String) : List Pdl.Domain → Option Pdl.PType
  | [] => none
  | z :: rest =>
    if dtyp = z.domain then resolveScanTypes typ z.types
    else resolveScanDomains dtyp typ rest

/-- `Resolve` is a utility func to resolve the fully qualified name of a
type's ref from the list of provided domains, relative to domain `d`
when ref is not namespaced. -/
def Resolve (ref : String) (d : Pdl.Domain) (domains : List Pdl.Domain)
    (sharedFunc : String → String → Bool) (camel : String → String) :
    Except String (String × Pdl.PType × String) :=
  let n := splitFirstDot ref
  let dtyp := match n.2 with | some _ => n.1 | none => d.domain
  let typ := match n.2 with | some after => after | none => n.1
  match resolveScanDomains dtyp typ domains with
  | none => .error ("could not resolve type " ++ ref ++ " in domain " ++ d.domain)
  | some other =>
    let s :=
      if sharedFunc dtyp typ then (if d.domain ≠ "cdp" then "cdp." else "")
      else if dtyp ≠ d.domain then goToLower dtyp ++ "."
      else ""
    .ok (dtyp, other, s ++ camel typ)

end Gotpl

/-! ## The normalization pass (`fixup/fixup.go`, pdl-based revision)

`FixDomains` and its helpers, translated over the pdl model.  External
inputs are gathered in `Externs`: `camel` is
`snaker.ForceCamelIdentifier` (external library), and the `extra*`
fields are the gotpl template renderers (generated quicktemplate code)
whose output strings are only ever appended to the opaque `Extra`
field.  Each helper keeps the source's evaluation order, including the
threading of the domain value through `addEnumValues`, which may append
synthesized enum types to `d.Types` mid-pass. -/

namespace Fixup

open Pdl

structure Externs where
  camel : String → String
  extraFixStringUnmarshaler : String → String → String → String
  extraNodeTemplate : String
  extraFrameTemplate : String
  extraTimestampTemplate : PType → Domain → String

/-- Specific type names to use for the applied fixes. -/
def domNodeIDRef : String := "NodeID"

def domNodeRef : String := "*Node"

/-- The inline `Extra` literal appended to `Runtime.ExceptionDetails`. -/
def exceptionDetailsExtra : String :=
  "// Error satisfies the error interface.\nfunc (e *ExceptionDetails) Error() string \x7b\n\t// TODO: watch script parsed events and match the ExceptionDetails.ScriptID\n\t// to the name/location of the actual code and display here\n\treturn fmt.Sprintf(\"encountered exception \x27%s\x27 (%d:%d)\", e.Text, e.LineNumber, e.ColumnNumber)\n\x7d\n"

/-- The inline `Extra` literal of the synthesized `Input.Modifier`. -/
def modifierCommandExtra : String :=
  "// ModifierCommand is an alias for ModifierMeta.\nconst ModifierCommand Modifier = ModifierMeta\n"

/-- `enumRefMap` is the fully qualified parameter name to ref. -/
def enumRefMap : List (String × String) :=
  [("Animation.Animation.type", "Type"),
   ("Console.ConsoleMessage.level", "MessageLevel"),
   ("Console.ConsoleMessage.source", "MessageSource"),
   ("CSS.CSSMedia.source", "MediaSource"),
   ("CSS.forcePseudoState.forcedPseudoClasses", "PseudoClass"),
   ("Debugger.setPauseOnExceptions.state", "ExceptionsState"),
   ("Emulation.ScreenOrientation.type", "OrientationType"),
   ("Emulation.setTouchEmulationEnabled.configuration", "EnabledConfiguration"),
   ("Input.dispatchKeyEvent.type", "KeyType"),
   ("Input.dispatchMouseEvent.button", "ButtonType"),
   ("Input.dispatchMouseEvent.type", "MouseType"),
   ("Input.dispatchTouchEvent.type", "TouchType"),
   ("Input.emulateTouchFromMouseEvent.button", "ButtonType"),
   ("Input.emulateTouchFromMouseEvent.type", "MouseType"),
   ("Input.TouchPoint.state", "TouchState"),
   ("Log.LogEntry.level", "Level"),
   ("Log.LogEntry.source", "Source"),
   ("Log.ViolationSetting.name", "Violation"),
   ("Network.Request.mixedContentType", "MixedContentType"),
   ("Network.Request.referrerPolicy", "ReferrerPolicy"),
   ("Page.startScreencast.format", "ScreencastFormat"),
   ("Runtime.consoleAPICalled.type", "APIType"),
   ("Runtime.ObjectPreview.subtype", "Subtype"),
   ("Runtime.ObjectPreview.type", "Type"),
   ("Runtime.PropertyPreview.subtype", "Subtype"),
   ("Runtime.PropertyPreview.type", "Type"),
   ("Runtime.RemoteObject.subtype", "Subtype"),
   ("Runtime.RemoteObject.type", "Type"),
   ("Tracing.start.transferMode", "TransferMode"),
   ("Tracing.TraceConfig.recordMode", "RecordMode")]

/-- The index of the first type with the given name (the find loop of
`addEnumValues`). -/
def findTypeIdx (n : String) : List PType → Option Nat
  | [] => none
  | t :: rest =>
    if t.name = n then some 0
    else (findTypeIdx n rest).map (· + 1)

/-- The output loop of `addEnumValues`' combine step: emit each element
of `all` the first time it is seen (`if !v[z] \x7b ... \x7d; v[z] = true`).
The first pass over the map only pre-sizes the output array to the
number of distinct keys, which is exactly the length this produces. -/
def dedupLoop : List String → List String → List String
  | [], _ => []
  | z :: rest, seen =>
    if seen.contains z then dedupLoop rest seen
    else z :: dedupLoop rest (z :: seen)

/-- `addEnumValues` adds `p`'s enum values to type named `n`'s enum
values in domain `d`. -/
def addEnumValues (d : Domain) (n : String) (p : PType) : Domain :=
  -- find type (create and append it when absent)
  let (d, idx) :=
    match findTypeIdx n d.types with
    | some i => (d, i)
    | none =>
      let typ := PType.ofBase
        { rawType := p.base.rawType, rawName := p.base.rawName, name := n,
          type := "string", description := p.description, optional := p.optional,
          alwaysEmit := p.base.alwaysEmit }
      ({ d with types := d.types ++ [typ] }, d.types.length)
  -- combine typ.Enum and vals
  let typ := d.types.getD idx default
  let all := typ.enum.getD [] ++ p.enum.getD []
  let types := modifyAt d.types idx
    (fun t => t.modBase (fun b => { b with enum := some (dedupLoop all []) }))
  { d with types := types }

/-- `fixupEnumParameter` takes an enum parameter, adds it to the domain
and returns a type suitable for use in place of the type. -/
def fixupEnumParameter (ex : Externs) (typ : String) (p : PType) (d : Domain) :
    Domain × PType :=
  let fqname := goTrimSuffix (d.domain ++ "." ++ typ ++ "." ++ p.name) "."
  let ref :=
    match enumRefMap.lookup fqname with
    | some n => n
    | none => ex.camel (typ ++ "." ++ p.name)
  -- add enum values to type name
  let d := addEnumValues d ref p
  (d, PType.ofBase
    { rawType := p.base.rawType, rawName := p.base.rawName, name := p.name,
      ref := ref, description := p.description, optional := p.optional,
      alwaysEmit := p.base.alwaysEmit })

/-- `convertObjectProperties` converts object properties, threading the
domain (which `addEnumValues` may extend). -/
def convertObjectProperties (ex : Externs) (d : Domain) (name : String) :
    List PType → Domain × List PType
  | [] => (d, [])
  | p :: rest =>
    let (d, elem) :=
      match hpi : p.items with
      | some pitems =>
        let (d, its) := convertObjectProperties ex d (name ++ "." ++ p.name) [pitems]
        (d, (PType.ofBase
          { rawType := p.base.rawType, rawName := p.base.rawName, name := p.name,
            type := "array", description := p.description, optional := p.optional,
            alwaysEmit := p.base.alwaysEmit }).setItems (some (its.headD default)))
      | none =>
      if p.enum.isSome then
        fixupEnumParameter ex name p d
      else if p.name = "modifiers" then
        (d, PType.ofBase
          { rawType := p.base.rawType, rawName := p.base.rawName, name := p.name,
            ref := "Modifier", description := p.description, optional := p.optional,
            alwaysEmit := true })
      else if p.name = "nodeType" then
        (d, PType.ofBase
          { rawType := p.base.rawType, rawName := p.base.rawName, name := p.name,
            ref := "DOM.NodeType", description := p.description, optional := p.optional,
            alwaysEmit := p.base.alwaysEmit })
      else if p.ref = "GestureSourceType" then
        (d, PType.ofBase
          { rawType := p.base.rawType, rawName := p.base.rawName, name := p.name,
            ref := "GestureType", description := p.description, optional := p.optional,
            alwaysEmit := p.base.alwaysEmit })
      else if p.ref = "CSSComputedStyleProperty" then
        (d, PType.ofBase
          { rawType := p.base.rawType, rawName := p.base.rawName, name := p.name,
            ref := "ComputedProperty", description := p.description, optional := p.optional,
            alwaysEmit := p.base.alwaysEmit })
      else if p.ref ≠ "" && !p.noExpose && !p.noResolve then
        let z :=
          match splitFirstDot p.ref with
          | (r0, none) => goTrimPrefix r0 d.domain
          | (r0, some r1) => r0 ++ "." ++ goTrimPrefix r1 r0
        let z := if z = "" then p.ref else z
        let z := goReplaceAll z "AX" ""
        (d, PType.ofBase
          { rawType := p.base.rawType, rawName := p.base.rawName, name := p.name,
            ref := z, description := p.description, optional := p.optional,
            alwaysEmit := p.base.alwaysEmit })
      else (d, p)
    let (d, relems) := convertObjectProperties ex d name rest
    (d, elem :: relems)
termination_by l => sizeOf l
decreasing_by
  · simp_wf
    cases j with
    | mk b i pr rt pp =>
      simp only [PType.items] at hpi
      subst hpi
      simp only [PType.mk.sizeOf_spec, Option.some.sizeOf_spec]
      have : 0 < sizeOf rest := by cases rest <;> simp
      omega
  · simp_wf

/-- The `t.Properties != nil` conversion loop over a domain's types.
The Go `range` iterates over the slice header captured at loop entry,
so only the first `n` (initial-length) entries are visited even though
`addEnumValues` may append new types meanwhile. -/
def convertTypesProps (ex : Externs) (d : Domain) (i : Nat) : Nat → Domain
  | 0 => d
  | n + 1 =>
    let t := d.types.getD i default
    let d :=
      match t.properties with
      | none => d
      | some props =>
        let (d, props') := convertObjectProperties ex d t.name props
        { d with types := modifyAt d.types i (fun t => t.setProperties (some props')) }
    convertTypesProps ex d (i + 1) n

/-- `convertObjects` converts the Parameters and Returns properties of
the object types (`d.Events` / `d.Commands`). -/
def convertObjects (ex : Externs) (d : Domain) (sec : ItemSec) (i : Nat) : Nat → Domain
  | 0 => d
  | n + 1 =>
    let t := (d.getSec sec).getD i default
    let (d, params') := convertObjectProperties ex d t.name (t.parameters.getD [])
    let d := d.setSec sec (modifyAt (d.getSec sec) i (fun u => u.setParameters (some params')))
    let d :=
      match t.returns with
      | none => d
      | some rets =>
        let (d, rets') := convertObjectProperties ex d t.name rets
        d.setSec sec (modifyAt (d.getSec sec) i (fun u => u.setReturns (some rets')))
    convertObjects ex d sec (i + 1) n

/-- Modify the first list element satisfying `pred` (a `range` loop with
`break` after the first hit). -/
def modFirst (pred : α → Bool) (f : α → α) : List α → List α
  | [] => []
  | x :: xs => if pred x then f x :: xs else x :: modFirst pred f xs

/-- `range`-and-mutate over `d.Types`. -/
def mapTypes (d : Domain) (f : PType → PType) : Domain :=
  { d with types := d.types.map f }

/-- `range`-and-mutate over `d.Commands`. -/
def mapCommands (d : Domain) (f : PType → PType) : Domain :=
  { d with commands := d.commands.map f }

/-- Append a synthesized type to `d.Types`. -/
def appendType (d : Domain) (t : PType) : Domain :=
  { d with types := d.types ++ [t] }

/-- The `Accessibility` branch of `FixDomains`. -/
def fixAccessibility (d : Domain) : Domain :=
  mapTypes d (fun t => t.modBase (fun b => { b with name := goReplaceAll b.name "AX" "" }))

/-- The `CSS` branch of `FixDomains`. -/
def fixCSS (d : Domain) : Domain :=
  mapTypes d (fun t =>
    if t.name = "CSSComputedStyleProperty" then
      t.modBase (fun b => { b with name := "ComputedProperty" })
    else t)

/-- The `DOM` branch of `FixDomains`. -/
def fixDOM (ex : Externs) (d : Domain) : Domain :=
  -- add DOM types
  let nodeTypeType := PType.ofBase
    { rawSee := "https://developer.mozilla.org/en/docs/Web/API/Node/nodeType",
      name := "NodeType", type := "integer", description := "Node type.",
      enum := some ["Element", "Attribute", "Text", "CDATA", "EntityReference",
                    "Entity", "ProcessingInstruction", "Comment", "Document",
                    "DocumentType", "DocumentFragment", "Notation"] }
  let d := appendType d nodeTypeType
  mapTypes d (fun t =>
    if t.name = "NodeId" || t.name = "BackendNodeId" then
      t.modBase (fun b => { b with extra :=
        b.extra ++ ex.extraFixStringUnmarshaler (ex.camel b.name) "ParseInt" ", 10, 64" })
    else if t.name = "Node" then
      let t := t.setProperties (some (t.properties.getD [] ++
        [PType.ofBase { name := "Parent", ref := domNodeRef,
                        description := "Parent node.", noResolve := true, noExpose := true },
         PType.ofBase { name := "Invalidated", ref := "chan struct\x7b\x7d",
                        description := "Invalidated channel.", noResolve := true, noExpose := true },
         PType.ofBase { name := "State", ref := "NodeState",
                        description := "Node state.", noResolve := true, noExpose := true },
         PType.ofBase { name := "", ref := "sync.RWMutex",
                        description := "Read write mutex.", noResolve := true, noExpose := true }]))
      t.modBase (fun b => { b with extra := b.extra ++ ex.extraNodeTemplate })
    else t)

/-- The `Input` branch of `FixDomains`. -/
def fixInput (ex : Externs) (d : Domain) : Domain :=
  -- add Input types
  let modifierType := PType.ofBase
    { name := "Modifier", type := "integer", enumBitMask := true,
      description := "Input key modifier type.",
      enum := some ["None", "Alt", "Ctrl", "Meta", "Shift"],
      extra := modifierCommandExtra }
  let d := appendType d modifierType
  let d := mapTypes d (fun t =>
    if t.name = "GestureSourceType" then
      t.modBase (fun b => { b with name := "GestureType" })
    else if t.name = "TimeSinceEpoch" then
      let t := t.modBase (fun b => { b with type := "timestamp", timestampType := 2 })
      t.modBase (fun b => { b with extra := b.extra ++ ex.extraTimestampTemplate t d })
    else t)
  mapCommands d (fun c =>
    if c.name = "dispatchKeyEvent" then
      c.setParameters ((c.parameters).map (fun ps => ps.map
        (fun p =>
          if p.name = "autoRepeat" || p.name = "isKeypad" || p.name = "isSystemKey" then
            p.modBase (fun b => { b with alwaysEmit := true })
          else p)))
    else c)

/-- The `Inspector` branch of `FixDomains`. -/
def fixInspector (d : Domain) : Domain :=
  -- add Inspector types
  let detachReasonType := PType.ofBase
    { name := "DetachReason", type := "string",
      enum := some ["target_closed", "canceled_by_user", "replaced_with_devtools",
                    "Render process gone."],
      description := "Detach reason." }
  let d := appendType d detachReasonType
  -- find detached event's reason parameter and change type (first hits only)
  let events := modFirst (fun e => e.name = "detached")
    (fun e => e.setParameters ((e.parameters).map
      (modFirst (fun t => t.name = "reason")
        (fun t => t.modBase (fun b => { b with ref := "DetachReason", type := "" })))))
    d.events
  { d with events := events }

/-- The `Network` branch of `FixDomains`. -/
def fixNetwork (ex : Externs) (d : Domain) : Domain :=
  mapTypes d (fun t =>
    let t :=
      if t.name = "TimeSinceEpoch" then
        let t := t.modBase (fun b => { b with type := "timestamp", timestampType := 2 })
        t.modBase (fun b => { b with extra := b.extra ++ ex.extraTimestampTemplate t d })
      else t
    let t :=
      if t.name = "MonotonicTime" then
        let t := t.modBase (fun b => { b with type := "timestamp", timestampType := 3 })
        t.modBase (fun b => { b with extra := b.extra ++ ex.extraTimestampTemplate t d })
      else t
    if t.name = "Headers" then
      t.modBase (fun b => { b with type := "any", ref := "map[string]interface\x7b\x7d" })
    else t)

/-- The `Page` branch of `FixDomains`. -/
def fixPage (ex : Externs) (d : Domain) : Domain :=
  mapTypes d (fun t =>
    if t.name = "FrameId" then
      t.modBase (fun b => { b with extra :=
        b.extra ++ ex.extraFixStringUnmarshaler (ex.camel b.name) "" "" })
    else if t.name = "Frame" then
      let t := t.setProperties (some (t.properties.getD [] ++
        [PType.ofBase { name := "State", ref := "FrameState",
                        description := "Frame state.", noResolve := true, noExpose := true },
         PType.ofBase { name := "Root", ref := domNodeRef,
                        description := "Frame document root.", noResolve := true, noExpose := true },
         PType.ofBase { name := "Nodes", ref := "map[" ++ domNodeIDRef ++ "]" ++ domNodeRef,
                        description := "Frame nodes.", noResolve := true, noExpose := true },
         PType.ofBase { name := "", ref := "sync.RWMutex",
                        description := "Read write mutex.", noResolve := true, noExpose := true }]))
      let t := t.modBase (fun b => { b with extra := b.extra ++ ex.extraFrameTemplate })
      -- convert Frame.id/parentId to $ref of FrameID
      t.setProperties ((t.properties).map (fun ps => ps.map
        (fun p =>
          if p.name = "id" || p.name = "parentId" then
            p.modBase (fun b => { b with ref := "FrameId", type := "" })
          else p)))
    else t)

/-- The `Runtime` branch of `FixDomains`. -/
def fixRuntime (ex : Externs) (d : Domain) : Domain :=
  mapTypes d (fun t =>
    if t.name = "Timestamp" then
      let t := t.modBase (fun b => { b with type := "timestamp", timestampType := 1 })
      t.modBase (fun b => { b with extra := b.extra ++ ex.extraTimestampTemplate t d })
    else if t.name = "ExceptionDetails" then
      t.modBase (fun b => { b with extra := b.extra ++ exceptionDetailsExtra })
    else t)

/-- The `fix input enums` block: build `EnumValueNameMap` for every
enum type of the `Input` domain other than `Modifier`. -/
def fixInputEnums (ex : Externs) (d : Domain) : Domain :=
  mapTypes d (fun t =>
    if t.enum.isSome && t.name ≠ "Modifier" then
      t.modBase (fun b =>
        { b with enumValueNameMap := some ((b.enum.getD []).map
            (fun v =>
              let prefix_ :=
                if b.name = "GestureType" then "Gesture"
                else if b.name = "ButtonType" then "Button"
                else ""
              let n := prefix_ ++ ex.camel v
              let n := if b.name = "KeyType" then "Key" ++ goReplaceAll n "Key" "" else n
              (v, goReplaceAll n "Cancell" "Cancel"))) })
    else t)

/-- The type-stuttering fix: strip the domain name prefix from exposed,
resolvable type names (unless stripping would empty the name). -/
def fixStuttering (d : Domain) : Domain :=
  mapTypes d (fun t =>
    if !t.noExpose && !t.noResolve then
      let id := goTrimPrefix t.name d.domain
      if id = "" then t
      else t.modBase (fun b => { b with name := id })
    else t)

/-- Per-domain body of `FixDomains`: the domain-name switch, the
property/parameter conversion passes, the Input enum-name table, and
the stuttering strip, in source order. -/
def fixDomain (ex : Externs) (d : Domain) : Domain :=
  let d :=
    if d.domain = "Accessibility" then fixAccessibility d
    else if d.domain = "CSS" then fixCSS d
    else if d.domain = "DOM" then fixDOM ex d
    else if d.domain = "Input" then fixInput ex d
    else if d.domain = "Inspector" then fixInspector d
    else if d.domain = "Network" then fixNetwork ex d
    else if d.domain = "Page" then fixPage ex d
    else if d.domain = "Runtime" then fixRuntime ex d
    else d
  -- convert object properties
  let d := convertTypesProps ex d 0 d.types.length
  -- process events and commands
  let d := convertObjects ex d .events 0 d.events.length
  let d := convertObjects ex d .commands 0 d.commands.length
  -- fix input enums
  let d := if d.domain = "Input" then fixInputEnums ex d else d
  -- fix type stuttering
  fixStuttering d

/-- `FixDomains` modifies, updates, alters, fixes, and adds to the types
defined in the domains (each domain is processed independently). -/
def FixDomains (ex : Externs) (domains : List Domain) : List Domain :=
  domains.map (fixDomain ex)

end Fixup

/-! ## Small lemmas about the model plumbing -/

namespace Pdl

@[simp] theorem PType.base_mk (b : PTypeBase) (i p r pr) :
    (PType.mk b i p r pr).base = b := rfl

@[simp] theorem PType.name_modBase (t : PType) (f : PTypeBase → PTypeBase) :
    (t.modBase f).base = f t.base := rfl

@[simp] theorem PType.name_ofBase (b : PTypeBase) : (PType.ofBase b).name = b.name := rfl

theorem modifyAt_length (l : List α) (i : Nat) (f : α → α) :
    (modifyAt l i f).length = l.length := by
  induction l generalizing i with
  | nil => rfl
  | cons x xs ih =>
    cases i with
    | zero => rfl
    | succ n => simpa [modifyAt] using ih n

theorem modifyAt_getD_ne (l : List α) (i j : Nat) (f : α → α) (dflt : α) (h : j ≠ i) :
    (modifyAt l i f).getD j dflt = l.getD j dflt := by
  induction l generalizing i j with
  | nil => rfl
  | cons x xs ih =>
    cases i with
    | zero =>
      cases j with
      | zero => exact absurd rfl h
      | succ m => rfl
    | succ n =>
      cases j with
      | zero => rfl
      | succ m => simpa [modifyAt] using ih n m (by omega)

theorem modifyAt_getD_eq (l : List α) (i : Nat) (f : α → α) (dflt : α) (h : i < l.length) :
    (modifyAt l i f).getD i dflt = f (l.getD i dflt) := by
  induction l generalizing i with
  | nil => simp at h
  | cons x xs ih =>
    cases i with
    | zero => rfl
    | succ n => simpa [modifyAt] using ih n (by simpa using h)

end Pdl

/-! ## Claim C2: `Combine`'s version merge -/

namespace Pdl

/-- The effect of one `Combine` iteration on the version accumulator:
an incoming strictly greater major replaces both components; otherwise
the minor is raised whenever the incoming minor is greater — also when
the incoming major is *smaller*. -/
def combineVersionStep (v : Version) (pv : Option Version) : Version :=
  match pv with
  | none => v
  | some w =>
    if v.major < w.major then w
    else if v.minor < w.minor then { major := v.major, minor := w.minor }
    else v

theorem combineStep_version (acc p : PDL) :
    (combineStep acc p).version = some (combineVersionStep (acc.version.getD {}) p.version) := by
  unfold combineStep combineVersionStep
  rcases hv : acc.version with _ | v <;> rcases hp : p.version with _ | pv <;>
    simp only [hv, hp, Option.getD_some, Option.getD_none] <;>
    split_ifs <;> simp_all

theorem foldl_combineStep_version (ps : List PDL) (acc : PDL) (v : Version)
    (h : acc.version = some v) :
    (ps.foldl combineStep acc).version =
      some (ps.foldl (fun v p => combineVersionStep v p.version) v) := by
  induction ps generalizing acc v with
  | nil => simpa using h
  | cons p rest ih =>
    simp only [List.foldl_cons]
    refine ih (combineStep acc p) (combineVersionStep v p.version) ?_
    rw [combineStep_version, h]
    rfl

end Pdl

/-- C2 (amended): for every non-empty sequence of parsed models,
`Combine`'s version is the left fold of `combineVersionStep` over the
inputs starting from `{major 0, minor 0}`: a strictly greater incoming
major wins outright, but otherwise the minor components are compared
(and the maximum kept) even when the incoming major is smaller; in
particular the two examples of the claim hold: `{1,9}` then `{1,12}`
gives `{1,12}`, and `{1,5}` then `{2,0}` gives `{2,0}`. -/
theorem claim2_combine_version_fold :
    (∀ ps : List Pdl.PDL, ps ≠ [] →
      (Pdl.Combine ps).version =
        some (ps.foldl (fun v p => Pdl.combineVersionStep v p.version) {})) ∧
    (Pdl.Combine [{ version := some { major := 1, minor := 9 } },
                  { version := some { major := 1, minor := 12 } }]).version =
      some { major := 1, minor := 12 } ∧
    (Pdl.Combine [{ version := some { major := 1, minor := 5 } },
                  { version := some { major := 2, minor := 0 } }]).version =
      some { major := 2, minor := 0 } := by
  refine ⟨?_, rfl, rfl⟩
  intro ps hne
  cases ps with
  | nil => exact absurd rfl hne
  | cons p rest =>
    unfold Pdl.Combine
    simp only [List.foldl_cons]
    rw [Pdl.foldl_combineStep_version rest (Pdl.combineStep {} p)
      (Pdl.combineVersionStep {} p.version) (by rw [Pdl.combineStep_version]; rfl)]

/-- C2 (witness): the fold characterization applied to the claim's
first example. -/
theorem claim2_combine_version_fold_witness :
    (Pdl.Combine [{ version := some { major := 1, minor := 9 } },
                  { version := some { major := 1, minor := 12 } }]).version =
      some ([{ version := some { major := 1, minor := 9 } },
             { version := some { major := 1, minor := 12 } }].foldl
              (fun v (p : Pdl.PDL) => Pdl.combineVersionStep v p.version) {}) :=
  claim2_combine_version_fold.1 _ (by simp)

/-- C2 (counterexample): merging `{major 2, minor 0}` with
`{major 1, minor 5}` yields `{major 2, minor 5}` — the code also raises
the minor when the incoming major is smaller, contradicting the claim's
"minor components are compared only when the majors are equal" (which
predicts `{major 2, minor 0}` here). -/
theorem claim2_counterexample :
    (Pdl.Combine [{ version := some { major := 2, minor := 0 } },
                  { version := some { major := 1, minor := 5 } }]).version =
      some { major := 2, minor := 5 } ∧
    ({ major := 2, minor := 5 } : Pdl.Version) ≠ { major := 2, minor := 0 } :=
  ⟨rfl, by decide⟩

/-! ## Claim C3: `assignType` and the primitive-name set -/

/-- C3 (amended): on a freshly constructed item and a non-`enum` base
token with the array flag off, `assignType` maps exactly the *seven*
primitive names of `primitiveTypes` — `any`, `array`, `boolean`,
`integer`, `number`, `object`, `string` — to the corresponding
primitive kind with the reference string left empty, and stores every
other token (`binary` included) verbatim as the reference string with
the kind left unset. -/
theorem claim3_assignType :
    (∀ typ pt, typ ≠ "enum" → Pdl.primitiveTypes typ = some pt →
      (Pdl.assignType (Pdl.PType.ofBase {}) typ false).base.type = pt ∧
      (Pdl.assignType (Pdl.PType.ofBase {}) typ false).base.ref = "") ∧
    (∀ typ, typ ≠ "enum" → Pdl.primitiveTypes typ = none →
      (Pdl.assignType (Pdl.PType.ofBase {}) typ false).base.type = "" ∧
      (Pdl.assignType (Pdl.PType.ofBase {}) typ false).base.ref = typ) ∧
    Pdl.primitiveTypes "any" = some "any" ∧
    Pdl.primitiveTypes "array" = some "array" ∧
    Pdl.primitiveTypes "boolean" = some "boolean" ∧
    Pdl.primitiveTypes "integer" = some "integer" ∧
    Pdl.primitiveTypes "number" = some "number" ∧
    Pdl.primitiveTypes "object" = some "object" ∧
    Pdl.primitiveTypes "string" = some "string" ∧
    Pdl.primitiveTypes "binary" = none := by
  refine ⟨?_, ?_, rfl, rfl, rfl, rfl, rfl, rfl, rfl, rfl⟩
  · intro typ pt hne hpt
    unfold Pdl.assignType Pdl.assignTypeScalar
    rw [if_neg (by decide : ¬ (false = true))]
    simp only [if_neg hne, hpt]
    exact ⟨rfl, rfl⟩
  · intro typ hne hpt
    unfold Pdl.assignType Pdl.assignTypeScalar
    rw [if_neg (by decide : ¬ (false = true))]
    simp only [if_neg hne, hpt]
    exact ⟨rfl, rfl⟩

/-- C3 (witness): the amended theorem applied at the token `binary`. -/
theorem claim3_assignType_witness :
    ("binary" ≠ "enum") ∧ Pdl.primitiveTypes "binary" = none ∧
    (Pdl.assignType (Pdl.PType.ofBase {}) "binary" false).base.type = "" ∧
    (Pdl.assignType (Pdl.PType.ofBase {}) "binary" false).base.ref = "binary" :=
  ⟨by decide, rfl,
   (claim3_assignType.2.1 "binary" (by decide) rfl).1,
   (claim3_assignType.2.1 "binary" (by decide) rfl).2⟩

/-- C3 (counterexample): the claim names `binary` among the primitive
names, but `assignType` stores `binary` as a reference string (the
`primitiveTypes` map has only seven entries), leaving the kind unset
instead of assigning a primitive kind with an empty reference. -/
theorem claim3_counterexample :
    (Pdl.assignType (Pdl.PType.ofBase {}) "binary" false).base.ref = "binary" ∧
    (Pdl.assignType (Pdl.PType.ofBase {}) "binary" false).base.type = "" ∧
    ("binary" : String) ≠ "" :=
  ⟨rfl, rfl, by decide⟩

/-! ## Claim C5: structurally premature lines -/

/-- C5 (counterexample): on an input whose first line is a depends-on
line before any domain header, `Parse` hits the unguarded
`domain.Dependencies` dereference with `domain == nil` — a nil-pointer
fault (modelled `.panic`) — and does not return a fatal descriptive
error (the `.err` constructor carrying an index and a line). -/
theorem claim5_counterexample :
    Pdl.Parse "  depends on X" = .panic ∧
    ∀ i l, Pdl.Parse "  depends on X" ≠ .err i l := by
  refine ⟨rfl, ?_⟩
  intro i l h
  rw [show Pdl.Parse "  depends on X" = .panic from rfl] at h
  exact Pdl.PResult.noConfusion h

/-- C5 (amended): a structurally premature line makes `Parse` fault on
a nil pointer dereference (modelled `.panic`) rather than return a
descriptive error: a depends-on line before any domain header
dereferences the nil current-domain pointer, and a member line before
any section marker dereferences the nil sub-item-list pointer. -/
theorem claim5_premature_line_panics :
    Pdl.Parse "  depends on X" = .panic ∧
    Pdl.Parse "      string x" = .panic :=
  ⟨rfl, rfl⟩

/-! ## Claim C4: the round-trip fixed point -/

/-- `serialize ∘ parse`: `Bytes(Parse(s))`, `none` when parsing fails
(or `Bytes` faults). -/
def reserialize (s : String) : Option String :=
  match Pdl.Parse s with
  | .ok p => Pdl.Bytes p
  | _ => none

/-- A syntactically valid input: a domain with one type carrying a
redirect (every line matches a classifier pattern and `Parse` accepts
it). -/
def c4Input : String := "domain D\n  type Foo extends string\n    redirect Other"

/-- What `Bytes` emits for the parse of `c4Input`: the type's redirect
line is written at two-space indentation, which the parser's
`^    redirect` pattern does not accept. -/
def c4Output : String := "domain D\n\n  type Foo extends string\n  redirect Other\n"

/-- C4 (code bug, evaluated at the failing input): `Bytes(Parse(T))`
for the valid input `T = c4Input` is `c4Output`, but re-parsing
`c4Output` stops with `line 3 unknown token "  redirect Other"` — so
`Bytes(Parse(Bytes(Parse(T))))` does not exist, let alone equal
`Bytes(Parse(T))`: the writer emits type redirects at an indentation
its own grammar rejects. -/
theorem claim4_roundtrip_broken :
    reserialize c4Input = some c4Output ∧
    Pdl.Parse c4Output = .err 3 "  redirect Other" ∧
    reserialize c4Output = none :=
  ⟨rfl, rfl, rfl⟩

/-! ## Claim C1: `Bytes` emission order -/

/-- A model with one domain `D` whose types were declared in the order
`B`, `A` (names deliberately out of alphabetical order). -/
def c1Domain : Pdl.Domain :=
  { domain := "D"
    types := [ Pdl.PType.ofBase { name := "B", type := "string" },
               Pdl.PType.ofBase { name := "A", type := "string" } ] }

def c1Model : Pdl.PDL := { domains := [c1Domain] }

/-- C1 (code bug, evaluated at the failing input): the `sort.Slice`
comparators for types, commands and events compare an element's name
with *itself* (`types[i].Name` against `types[i].Name`), so the sort
moves nothing, and `Bytes` emits `type B` before `type A` — not sorted
by name as the claim (and the source's own `// sort types` comments)
state.  The copyright block, version block and domain sort are not at
issue here. -/
theorem claim1_bytes_types_unsorted :
    Pdl.Bytes c1Model =
      some "domain D\n\n  type B extends string\n\n  type A extends string\n" ∧
    Pdl.sortSliceGo (fun i _j => goStrLt i.name i.name) c1Domain.types = c1Domain.types :=
  ⟨rfl, rfl⟩

/-! ## Claim C7: the CSS rename and the stuttering strip -/

/-- Trivial template/camel externs for evaluating the fixup pass on
models that never reach a template call. -/
def noTemplates : Fixup.Externs :=
  { camel := fun s => s
    extraFixStringUnmarshaler := fun _ _ _ => ""
    extraNodeTemplate := ""
    extraFrameTemplate := ""
    extraTimestampTemplate := fun _ _ => "" }

/-- The claim's scenario: a domain named `CSS` containing the type
`CSSComputedStyleProperty`, not flagged `NoExpose` or `NoResolve`. -/
def c7Domain : Pdl.Domain :=
  { domain := "CSS"
    types := [ Pdl.PType.ofBase { name := "CSSComputedStyleProperty", type := "object" } ] }

/-- As `c7Domain` but with a second CSS-prefixed type that has no
rename-table entry. -/
def c7DomainTwo : Pdl.Domain :=
  { domain := "CSS"
    types := [ Pdl.PType.ofBase { name := "CSSComputedStyleProperty", type := "object" },
               Pdl.PType.ofBase { name := "CSSStyleSheetHeader", type := "object" } ] }

/-- C7 (counterexample): after the normalization pass, the type's name
is `ComputedProperty`, not the claimed `ComputedStyleProperty`: the
CSS branch's explicit rename of `CSSComputedStyleProperty` to
`ComputedProperty` runs before the stuttering strip, which then finds
no `CSS` prefix left to strip. -/
theorem claim7_counterexample :
    ((Fixup.FixDomains noTemplates [c7Domain]).headD default).types.map Pdl.PType.name =
      ["ComputedProperty"] ∧
    ("ComputedProperty" : String) ≠ "ComputedStyleProperty" :=
  ⟨rfl, by decide⟩

/-- C7 (amended): after the normalization pass runs on a model with a
domain named `CSS` holding `CSSComputedStyleProperty` (not flagged
`NoExpose`/`NoResolve`), that type's name is `ComputedProperty` — the
curated rename applies before the stuttering strip — while a
CSS-prefixed type without a rename entry (here `CSSStyleSheetHeader`)
has exactly the literal `CSS` prefix stripped, becoming
`StyleSheetHeader`.  This holds for every choice of template/camel
externs. -/
theorem claim7_css_names (ex : Fixup.Externs) :
    ((Fixup.FixDomains ex [c7DomainTwo]).headD default).types.map Pdl.PType.name =
      ["ComputedProperty", "StyleSheetHeader"] := rfl

/-! ## Claims C6 and C10: the resolvers -/

theorem resolveScanTypes_eq_find? (typ : String) (l : List Pdl.PType) :
    Pdl.resolveScanTypes typ l = l.find? (fun j => j.name == typ) := by
  induction l with
  | nil => rfl
  | cons j rest ih =>
    simp only [Pdl.resolveScanTypes, List.find?]
    by_cases h : j.name = typ
    · simp [h]
    · rw [if_neg h, show (j.name == typ) = false from by simp [h]]
      exact ih

theorem resolveScanDomains_eq_find? (dtyp typ : String) (ds : List Pdl.Domain) :
    Pdl.resolveScanDomains dtyp typ ds =
      (ds.find? (fun z => z.domain == dtyp)).bind
        (fun z => z.types.find? (fun j => j.name == typ)) := by
  induction ds with
  | nil => rfl
  | cons z rest ih =>
    simp only [Pdl.resolveScanDomains, List.find?]
    by_cases h : dtyp = z.domain
    · rw [if_pos h]
      rw [show (z.domain == dtyp) = true by simp [h]]
      simp [resolveScanTypes_eq_find?]
    · rw [if_neg h]
      rw [show (z.domain == dtyp) = false by simp; exact fun hq => h hq.symm]
      simpa using ih

/-- C6: `Resolve` splits the reference on the first dot (target domain
defaulting to the current domain `d` when there is no dot), looks up
the first domain of that name and, inside it, the first type with the
bare name; on success it returns the target-domain identifier, that
type, and a display name prefixed with `cdp.` exactly when the shared
predicate holds and `d` is not itself `cdp`, else with the lowercase
target-domain name followed by a dot when the target domain differs
from `d`, else unprefixed, always ending in the camel-cased bare name;
on failure it faults with a message naming the unresolved reference and
the requesting domain. -/
theorem claim6_resolve (ref : String) (d : Pdl.Domain) (domains : List Pdl.Domain)
    (sharedFunc : String → String → Bool) (camel : String → String) :
    let parts := splitFirstDot ref
    let dtyp := match parts.2 with | some _ => parts.1 | none => d.domain
    let bare := match parts.2 with | some a => a | none => parts.1
    match (domains.find? (fun z => z.domain == dtyp)).bind
          (fun z => z.types.find? (fun j => j.name == bare)) with
    | some t =>
      Pdl.Resolve ref d domains sharedFunc camel =
        .ok (dtyp, t,
          (if sharedFunc dtyp bare then (if d.domain ≠ "cdp" then "cdp." else "")
           else if dtyp ≠ d.domain then goToLower dtyp ++ "."
           else "") ++ camel bare)
    | none =>
      Pdl.Resolve ref d domains sharedFunc camel =
        .error ("could not resolve type " ++ ref ++ " in domain " ++ d.domain) := by
  intro parts dtyp bare
  have hR : Pdl.Resolve ref d domains sharedFunc camel =
      (match Pdl.resolveScanDomains dtyp bare domains with
       | none => .error ("could not resolve type " ++ ref ++ " in domain " ++ d.domain)
       | some other =>
         .ok (dtyp, other,
           (if sharedFunc dtyp bare then (if d.domain ≠ "cdp" then "cdp." else "")
            else if dtyp ≠ d.domain then goToLower dtyp ++ "."
            else "") ++ camel bare)) := rfl
  cases hfound : (domains.find? (fun z => z.domain == dtyp)).bind
      (fun z => z.types.find? (fun j => j.name == bare)) with
  | none => rw [hR, resolveScanDomains_eq_find?, hfound]
  | some t => rw [hR, resolveScanDomains_eq_find?, hfound]

/-- C10: the core resolver `pdl.Resolve` and the emission-helper
resolver `gotpl.Resolve` compute identical results on every reference,
current domain, domain list, shared predicate and camel-casing
function — the same triple on success, and failure (with the same
message) in exactly the same cases. -/
theorem claim10_resolvers_agree (ref : String) (d : Pdl.Domain)
    (domains : List Pdl.Domain) (sharedFunc : String → String → Bool)
    (camel : String → String) :
    Pdl.Resolve ref d domains sharedFunc camel =
      Gotpl.Resolve ref d domains sharedFunc camel := by
  have hscanT : ∀ typ (l : List Pdl.PType), Pdl.resolveScanTypes typ l =
      Gotpl.resolveScanTypes typ l := by
    intro typ l
    induction l with
    | nil => rfl
    | cons j jrest ihj => simp only [Pdl.resolveScanTypes, Gotpl.resolveScanTypes, ihj]
  have hscan : ∀ dtyp typ ds, Pdl.resolveScanDomains dtyp typ ds =
      Gotpl.resolveScanDomains dtyp typ ds := by
    intro dtyp typ ds
    induction ds with
    | nil => rfl
    | cons z rest ih =>
      simp only [Pdl.resolveScanDomains, Gotpl.resolveScanDomains, ih, hscanT]
  simp only [Pdl.Resolve, Gotpl.Resolve, hscan]

/-! ## Claim C8: enum promotion into an existing type -/

namespace Fixup

/-- The order-preserving, first-occurrence union described by the
claim: append each literal unless it already occurs. -/
def dedupFirst (l : List String) : List String :=
  l.foldl (fun acc z => if acc.contains z then acc else acc ++ [z]) []

theorem scontains_iff (l : List String) (x : String) : l.contains x = true ↔ x ∈ l := by
  induction l with
  | nil => simp
  | cons a as ih =>
    rw [List.contains_cons]
    constructor
    · intro hor
      rcases Bool.or_eq_true_iff.mp hor with hb | hc
      · exact List.mem_cons.mpr (Or.inl (eq_of_beq hb))
      · exact List.mem_cons.mpr (Or.inr (ih.mp hc))
    · intro hm
      rcases List.mem_cons.mp hm with rfl | hm
      · exact Bool.or_eq_true_iff.mpr (Or.inl (by simp))
      · exact Bool.or_eq_true_iff.mpr (Or.inr (ih.mpr hm))

theorem dedupLoop_congr (l : List String) (s1 s2 : List String)
    (h : ∀ x, x ∈ s1 ↔ x ∈ s2) :
    dedupLoop l s1 = dedupLoop l s2 := by
  induction l generalizing s1 s2 with
  | nil => rfl
  | cons z rest ih =>
    have hc : s1.contains z = s2.contains z := by
      by_cases hz : z ∈ s2
      · rw [(scontains_iff s1 z).mpr ((h z).mpr hz), (scontains_iff s2 z).mpr hz]
      · have h1 : s1.contains z = false := by
          by_cases hc1 : s1.contains z
          · exact absurd ((h z).mp ((scontains_iff s1 z).mp hc1)) hz
          · simpa using hc1
        have h2 : s2.contains z = false := by
          by_cases hc2 : s2.contains z
          · exact absurd ((scontains_iff s2 z).mp hc2) hz
          · simpa using hc2
        rw [h1, h2]
    simp only [dedupLoop, hc]
    by_cases hz : s2.contains z
    · rw [if_pos hz, if_pos hz]
      exact ih s1 s2 h
    · rw [if_neg hz, if_neg hz]
      refine congrArg _ (ih _ _ ?_)
      intro x
      simp [h x]

theorem foldl_dedup_eq_dedupLoop (l : List String) (acc : List String) :
    l.foldl (fun acc z => if acc.contains z then acc else acc ++ [z]) acc =
      acc ++ dedupLoop l acc := by
  induction l generalizing acc with
  | nil => simp [dedupLoop]
  | cons z rest ih =>
    simp only [List.foldl_cons, dedupLoop]
    by_cases hz : acc.contains z
    · rw [if_pos hz, if_pos hz, ih]
    · rw [if_neg hz, if_neg hz, ih]
      rw [dedupLoop_congr rest (acc ++ [z]) (z :: acc) (by intro x; simp; tauto)]
      simp

theorem dedupFirst_eq_dedupLoop (l : List String) :
    dedupFirst l = dedupLoop l [] := by
  simpa [dedupFirst] using foldl_dedup_eq_dedupLoop l []

theorem mem_dedupLoop (l seen : List String) (x : String) :
    x ∈ dedupLoop l seen ↔ x ∈ l ∧ x ∉ seen := by
  induction l generalizing seen with
  | nil => simp [dedupLoop]
  | cons z rest ih =>
    simp only [dedupLoop]
    by_cases hz : seen.contains z
    · rw [if_pos hz]
      have hzs : z ∈ seen := (scontains_iff seen z).mp hz
      rw [ih]
      constructor
      · rintro ⟨hx, hs⟩
        exact ⟨List.mem_cons_of_mem _ hx, hs⟩
      · rintro ⟨hx, hs⟩
        rcases List.mem_cons.mp hx with rfl | hx
        · exact absurd hzs hs
        · exact ⟨hx, hs⟩
    · rw [if_neg hz]
      have hzs : z ∉ seen := fun hm => hz ((scontains_iff seen z).mpr hm)
      constructor
      · intro hx
        rcases List.mem_cons.mp hx with rfl | hx
        · exact ⟨List.mem_cons_self _ _, hzs⟩
        · rcases (ih _).mp hx with ⟨hr, hs⟩
          exact ⟨List.mem_cons_of_mem _ hr, fun hm => hs (List.mem_cons_of_mem _ hm)⟩
      · rintro ⟨hx, hs⟩
        rcases List.mem_cons.mp hx with rfl | hx
        · exact List.mem_cons_self _ _
        · by_cases hxz : x = z
          · subst hxz; exact List.mem_cons_self _ _
          · refine List.mem_cons_of_mem _ ((ih _).mpr ⟨hx, ?_⟩)
            intro hm
            rcases List.mem_cons.mp hm with h1 | h2
            · exact hxz h1
            · exact hs h2

theorem dedupLoop_nodup (l seen : List String) : (dedupLoop l seen).Nodup := by
  induction l generalizing seen with
  | nil => simp [dedupLoop]
  | cons z rest ih =>
    simp only [dedupLoop]
    by_cases hz : seen.contains z
    · rw [if_pos hz]; exact ih seen
    · rw [if_neg hz]
      refine List.nodup_cons.mpr ⟨?_, ih _⟩
      intro hmem
      rcases (mem_dedupLoop _ _ _).mp hmem with ⟨_, hs⟩
      exact hs (List.mem_cons_self _ _)

theorem dedupLoop_sublist (l seen : List String) : List.Sublist (dedupLoop l seen) l := by
  induction l generalizing seen with
  | nil => simp [dedupLoop]
  | cons z rest ih =>
    simp only [dedupLoop]
    by_cases hz : seen.contains z
    · rw [if_pos hz]; exact (ih seen).cons z
    · rw [if_neg hz]; exact (ih _).cons₂ z

theorem findTypeIdx_some (n : String) (l : List Pdl.PType) (i : Nat)
    (h : findTypeIdx n l = some i) :
    i < l.length ∧ (l.getD i default).name = n := by
  induction l generalizing i with
  | nil => simp [findTypeIdx] at h
  | cons t rest ih =>
    simp only [findTypeIdx] at h
    by_cases ht : t.name = n
    · rw [if_pos ht] at h
      cases h
      exact ⟨by simp, ht⟩
    · rw [if_neg ht] at h
      cases hrec : findTypeIdx n rest with
      | none => rw [hrec] at h; exact Option.noConfusion h
      | some k =>
        rw [hrec] at h
        have hik : k + 1 = i := by simpa using h
        subst hik
        have hih := ih k hrec
        refine ⟨?_, hih.2⟩
        have := hih.1
        simp only [List.length_cons]
        omega

end Fixup

/-- C8: when a type named `n` already exists in the domain,
`addEnumValues` creates no new type (the type list keeps its length and
every other entry), and afterwards that type — its name still `n` —
carries exactly the order-preserving union of its previous enum
literals followed by the promoted field's literals: the first
occurrence of each literal is kept (`dedupFirst`), the result is free
of duplicates, and it is a sublist (order-preserving selection) of the
concatenation. -/
theorem claim8_addEnumValues (d : Pdl.Domain) (n : String) (p : Pdl.PType) (i : Nat)
    (h : Fixup.findTypeIdx n d.types = some i) :
    ((Fixup.addEnumValues d n p).types.length = d.types.length) ∧
    (∀ j, j ≠ i →
      (Fixup.addEnumValues d n p).types.getD j default = d.types.getD j default) ∧
    (((Fixup.addEnumValues d n p).types.getD i default).name = n) ∧
    (((Fixup.addEnumValues d n p).types.getD i default).enum =
      some (Fixup.dedupFirst ((d.types.getD i default).enum.getD [] ++ p.enum.getD []))) ∧
    (Fixup.dedupFirst ((d.types.getD i default).enum.getD [] ++ p.enum.getD [])).Nodup ∧
    (List.Sublist (Fixup.dedupFirst ((d.types.getD i default).enum.getD [] ++ p.enum.getD []))
      ((d.types.getD i default).enum.getD [] ++ p.enum.getD [])) := by
  obtain ⟨hlt, hname⟩ := Fixup.findTypeIdx_some n d.types i h
  have hadd : Fixup.addEnumValues d n p =
      { d with types := Pdl.modifyAt d.types i (fun t => t.modBase (fun b =>
          { b with enum := some (Fixup.dedupLoop
              ((d.types.getD i default).enum.getD [] ++ p.enum.getD []) []) })) } := by
    unfold Fixup.addEnumValues
    rw [h]
  rw [hadd, Fixup.dedupFirst_eq_dedupLoop]
  refine ⟨by simp [Pdl.modifyAt_length], ?_, ?_, ?_,
    Fixup.dedupLoop_nodup _ _, Fixup.dedupLoop_sublist _ _⟩
  · intro j hj
    exact Pdl.modifyAt_getD_ne _ _ _ _ _ hj
  · rw [show ({ d with types := Pdl.modifyAt d.types i _ } : Pdl.Domain).types =
        Pdl.modifyAt d.types i _ from rfl]
    rw [Pdl.modifyAt_getD_eq _ _ _ _ hlt]
    simpa using hname
  · rw [show ({ d with types := Pdl.modifyAt d.types i _ } : Pdl.Domain).types =
        Pdl.modifyAt d.types i _ from rfl]
    rw [Pdl.modifyAt_getD_eq _ _ _ _ hlt]
    rfl

/-- C8 (witness): the theorem applied to a domain whose second type is
named `Color` with literals `red, blue`, promoting a field with
literals `green, red, green`. -/
theorem claim8_addEnumValues_witness :
    (Fixup.findTypeIdx "Color"
      [Pdl.PType.ofBase { name := "X", type := "string" },
       Pdl.PType.ofBase { name := "Color", type := "string", enum := some ["red", "blue"] }] =
      some 1) ∧
    ((Fixup.addEnumValues
        { domain := "D",
          types := [Pdl.PType.ofBase { name := "X", type := "string" },
                    Pdl.PType.ofBase { name := "Color", type := "string",
                                       enum := some ["red", "blue"] }] }
        "Color"
        (Pdl.PType.ofBase { name := "f", enum := some ["green", "red", "green"] })).types.getD
          1 default).enum =
      some (Fixup.dedupFirst (["red", "blue"] ++ ["green", "red", "green"])) :=
  ⟨rfl,
   (claim8_addEnumValues
      { domain := "D",
        types := [Pdl.PType.ofBase { name := "X", type := "string" },
                  Pdl.PType.ofBase { name := "Color", type := "string",
                                     enum := some ["red", "blue"] }] }
      "Color"
      (Pdl.PType.ofBase { name := "f", enum := some ["green", "red", "green"] })
      1 rfl).2.2.2.1⟩

/-! ## Claim C9: unclassifiable lines abort the parse -/

/-- C9: whenever the parse loop reaches a line (at 0-based index `i`,
with any parser state `s` built from the preceding lines) that is not a
comment, not blank, and matches none of the twelve classifier patterns,
the parse stops at that line immediately — whatever lines follow — and
returns the error carrying `i` and the raw line text, not a model. -/
theorem claim9_unknown_token (s : Pdl.PState) (i : Nat) (line : String)
    (rest : List String)
    (hcomment : (trimChars (chars line)).headD ' ' ≠ '#')
    (hblank : trimChars (chars line) ≠ [])
    (h1 : matchDomain (chars line) = none)
    (h2 : matchDepends (chars line) = none)
    (h3 : matchType (chars line) = none)
    (h4 : matchCommandEvent (chars line) = none)
    (h5 : matchMember (chars line) = none)
    (h6 : matchSection (chars line) = none)
    (h7 : matchEnum (chars line) = none)
    (h8 : matchVersion (chars line) = none)
    (h9 : matchMajor (chars line) = none)
    (h10 : matchMinor (chars line) = none)
    (h11 : matchRedirect (chars line) = none)
    (h12 : matchEnumLiteral (chars line) = none) :
    Pdl.parseLines s i (line :: rest) = .err i line := by
  have hstep : Pdl.parseLine s line = .unknownTok := by
    unfold Pdl.parseLine
    simp only [h1, h2, h3, h4, h5, h6, h7, h8, h9, h10, h11, h12,
      if_neg hcomment, if_neg hblank]
  simp only [Pdl.parseLines, hstep]

/-- C9 (witness): a one-line input `???` (no classifier matches it). -/
theorem claim9_unknown_token_witness :
    Pdl.parseLines {} 0 ["???"] = .err 0 "???" :=
  claim9_unknown_token {} 0 "???" [] (by decide) (by decide)
    rfl rfl rfl rfl rfl rfl rfl rfl rfl rfl rfl rfl
